import Mathlib

/- Verification of the dynamic SQL query builder of a multi-tenant document service:
   the naming normalizer (camel_to_snake / snake_to_camel), the ORDER BY generator
   (get_sorter_sql), the filter compiler (_generate_where_clause / get_filter_sql)
   with hierarchical access scoping, the organization hierarchy resolver
   (get_user_organizations / get_org_hierarchy), and the authorized mutation executor
   (delete and the read fallbacks of the fetch helpers).  Python strings are embedded
   as List Char; dicts preserving insertion order as association lists; the relational
   and cache stores as explicit state passed through the functions; store round-trips
   additionally leave an explicit event trace. -/

def isLowerAlpha (c : Char) : Bool := 97 ≤ c.toNat && c.toNat ≤ 122

def isDigitA (c : Char) : Bool := 48 ≤ c.toNat && c.toNat ≤ 57

def isWordChar (c : Char) : Bool := isLowerAlpha c || isDigitA c

def csStep (c : Char) : List Char := if c.isUpper then ['_', c.toLower] else [c]

def camel_to_snake (s : List Char) : List Char :=
  (s.flatMap csStep).dropWhile (fun c => c == '_')

def pySplit (sep : Char) : List Char → List (List Char)
  | [] => [[]]
  | c :: cs =>
    let r := pySplit sep cs
    if c = sep then [] :: r
    else
      match r with
      | [] => [[c]]
      | p :: ps => (c :: p) :: ps

def pyCapitalize : List Char → List Char
  | [] => []
  | c :: cs => c.toUpper :: cs.map Char.toLower

def snake_to_camel (s : List Char) : List Char :=
  match pySplit '_' s with
  | [] => []
  | p :: ps => p ++ (ps.map pyCapitalize).flatten

def validWordChars (w : List Char) : Bool := !w.isEmpty && w.all isWordChar

def validWord (w : List Char) : Bool :=
  match w with
  | [] => false
  | c :: cs => isLowerAlpha c && cs.all isWordChar

def renderSnake (w0 : List Char) (ws : List (List Char)) : List Char :=
  w0 ++ ws.flatMap (fun w => '_' :: w)

def renderCamel (w0 : List Char) (ws : List (List Char)) : List Char :=
  w0 ++ (ws.map pyCapitalize).flatten

def ctChars : List Char := ['c','r','e','a','t','e','_','t','i','m','e']

def createTimeKey : List Char := ['c','r','e','a','t','e','T','i','m','e']

def descSuffix : List Char := [' ','D','E','S','C']

def ascSuffix : List Char := [' ','A','S','C']

def orderByChars : List Char := ['O','R','D','E','R',' ','B','Y',' ']

def containsSub (sub l : List Char) : Bool := decide (sub <:+: l)

def aliasLookup (m : List (List Char × List Char)) (k : List Char) : Option (List Char) :=
  (m.find? (fun p => p.1 == k)).map (fun p => p.2)

def qualifyField (aliasMap : List (List Char × List Char)) (snake : List Char) : List Char :=
  match aliasLookup aliasMap snake with
  | some a => a ++ '.' :: snake
  | none => snake

def sorterStep (aliasMap : List (List Char × List Char)) (o : List (List Char))
    (k : List Char) (d : Int) : List (List Char) :=
  let snake := camel_to_snake k
  let q := qualifyField aliasMap snake
  let o1 := if snake == ctChars then o.filter (fun f => !(containsSub ctChars f)) else o
  if d == 1 then o1 ++ [q] else if d == -1 then o1 ++ ['-' :: q] else o1

def buildOrdering (aliasMap : List (List Char × List Char))
    (sorter : List (List Char × Int)) : List (List Char) :=
  sorter.foldl (fun o kv => sorterStep aliasMap o kv.1 kv.2) []

def withDefaultOrdering (aliasMap : List (List Char × List Char))
    (o : List (List Char)) : List (List Char) :=
  if o.any (fun f => containsSub ctChars f) then o
  else o ++ ['-' :: qualifyField aliasMap ctChars]

def orderClause (f : List Char) : List Char :=
  match f with
  | [] => f ++ ascSuffix
  | c :: rest => if c = '-' then rest ++ descSuffix else f ++ ascSuffix

def order_clauses (aliasMap : List (List Char × List Char))
    (sorter : List (List Char × Int)) : List (List Char) :=
  (withDefaultOrdering aliasMap (buildOrdering aliasMap sorter)).map orderClause

def joinCommaSp (l : List (List Char)) : List Char := (l.intersperse [',',' ']).flatten

def get_sorter_sql (sorter : List (List Char × Int))
    (aliasMap : List (List Char × List Char)) : List Char :=
  let cl := order_clauses aliasMap sorter
  if cl.isEmpty then [] else orderByChars ++ joinCommaSp cl

def ctDesc : List Char := ctChars ++ descSuffix

def keyChar (c : Char) : Bool := c.isUpper || isWordChar c

inductive PyVal where
  | vNone
  | vStr (s : List Char)
  | vInt (n : Int)
  | vList (l : List PyVal)

def pyIsEmptyFilter : PyVal → Bool
  | .vNone => true
  | .vStr s => s.isEmpty
  | .vList l => l.isEmpty
  | .vInt _ => false

def pyTruthy : PyVal → Bool
  | .vNone => false
  | .vStr s => !s.isEmpty
  | .vInt n => n != 0
  | .vList l => !l.isEmpty

def isPair : PyVal → Bool
  | .vList l => l.length == 2
  | _ => false

def joinSepChars (sep : List Char) (l : List (List Char)) : List Char :=
  (l.intersperse sep).flatten

mutual

def pyStr : PyVal → List Char
  | .vStr s => s
  | .vInt n => (toString n).data
  | .vNone => ("None").data
  | .vList l => '[' :: joinSepChars ([',',' ']) (pyReprs l) ++ [']']

def pyReprs : List PyVal → List (List Char)
  | [] => []
  | v :: vs => pyRepr v :: pyReprs vs

def pyRepr : PyVal → List Char
  | .vStr s => '\'' :: s ++ ['\'']
  | .vInt n => (toString n).data
  | .vNone => ("None").data
  | .vList l => '[' :: joinSepChars ([',',' ']) (pyReprs l) ++ [']']
end

def is_valid_time_range (key : List Char) (v : PyVal) : Bool :=
  containsSub ("Time").data key && isPair v

def qualifyFilterField (am : List (List Char × List Char)) (s : List Char) : List Char :=
  match aliasLookup am s with
  | some a => if a.isEmpty then s else a ++ '.' :: s
  | none => s

def dictGet : List (List Char × PyVal) → List Char → Option PyVal
  | [], _ => none
  | kv :: rest, k => if kv.1 == k then some kv.2 else dictGet rest k

def kwClause (body : List (List Char × PyVal)) (kwf : List (List Char))
    (am : List (List Char × List Char)) : Option (List Char × List PyVal) :=
  match dictGet body (("keywords").data) with
  | none => none
  | some kw =>
    if pyTruthy kw && !kwf.isEmpty then
      let conds := kwf.map (fun f =>
        qualifyFilterField am (camel_to_snake f) ++ (" LIKE %s").data)
      let ps := kwf.map (fun _ => PyVal.vStr ('%' :: pyStr kw ++ ['%']))
      some ('(' :: joinSepChars ((" OR ").data) conds ++ [')'], ps)
    else none

def fieldCond (am : List (List Char × List Char)) (pf : List (List Char))
    (kv : List Char × PyVal) : Option (List Char × List PyVal) :=
  if kv.1 == ("keywords").data then none
  else if pyIsEmptyFilter kv.2 then none
  else if is_valid_time_range kv.1 kv.2 then
    match kv.2 with
    | .vList [a, b] =>
      some (qualifyFilterField am (camel_to_snake kv.1) ++ (" BETWEEN %s AND %s").data, [a, b])
    | _ => none
  else
    let ks := camel_to_snake kv.1
    let fn := qualifyFilterField am ks
    if pf.contains ks then some (fn ++ (" = %s").data, [kv.2])
    else some (fn ++ (" LIKE %s").data, [PyVal.vStr ('%' :: pyStr kv.2 ++ ['%'])])

inductive ScopeArg where
  | sFalse
  | sNone
  | sList (ids : List Int)

def notAllowed : ScopeArg → Bool
  | .sNone => true
  | .sFalse => true
  | .sList l => l.isEmpty

def isFalseArg : ScopeArg → Bool
  | .sFalse => true
  | _ => false

def resolveScope (allowed : ScopeArg) (user : Option Int)
    (resolver : Int → List Int) : ScopeArg :=
  if notAllowed allowed && !isFalseArg allowed && user.isSome then
    match user with
    | some org => if org != 0 then ScopeArg.sList (resolver org) else allowed
    | none => allowed
  else allowed

def scopeCond (am : List (List Char × List Char)) (rs : ScopeArg) :
    Option (List Char × List PyVal) :=
  match rs with
  | .sList ids =>
    let fn := qualifyFilterField am (("org_id").data)
    some (fn ++ (" IN (").data ++
      joinSepChars ([',',' ']) (ids.map (fun _ => ("%s").data)) ++ [')'],
      ids.map PyVal.vInt)
  | _ => none

def _generate_where_clause (body : List (List Char × PyVal))
    (kwf : List (List Char)) (am : List (List Char × List Char))
    (pf : List (List Char)) (allowed : ScopeArg) (user : Option Int)
    (resolver : Int → List Int) : List Char × List PyVal :=
  let condList := (kwClause body kwf am).toList ++ body.filterMap (fieldCond am pf) ++
    (scopeCond am (resolveScope allowed user resolver)).toList
  (joinSepChars ((" AND ").data) (condList.map Prod.fst),
    (condList.map Prod.snd).flatten)

def pyWordChar (c : Char) : Bool := c.isAlphanum || c == '_'

def startsWithCI : List Char → List Char → Bool
  | [], _ => true
  | _ :: _, [] => false
  | p :: ps, c :: cs => (c.toUpper == p) && startsWithCI ps cs

def boundaryOk : Option Char → Bool
  | none => true
  | some c => !pyWordChar c

def containsWordWhereGo (prev : Option Char) : List Char → Bool
  | [] => false
  | c :: rest =>
    (boundaryOk prev && startsWithCI (("WHERE").data) (c :: rest) &&
      boundaryOk ((c :: rest).drop 5).head?) ||
    containsWordWhereGo (some c) rest

def containsWordWhere (s : List Char) : Bool := containsWordWhereGo none s

def splitLastLine (s : List Char) : List Char × List Char :=
  let r := s.reverse
  ((r.dropWhile (fun c => c ≠ '\n')).reverse, (r.takeWhile (fun c => c ≠ '\n')).reverse)

def idxDashDash : List Char → Option Nat
  | '-' :: '-' :: _ => some 0
  | _ :: rest => (idxDashDash rest).map (fun i => i + 1)
  | [] => none

def pyStripTrailing (s : List Char) : List Char :=
  let pl := splitLastLine s
  match idxDashDash pl.2 with
  | some i => ((pl.1 ++ pl.2.take i).reverse.dropWhile Char.isWhitespace).reverse
  | none => (s.reverse.dropWhile Char.isWhitespace).reverse

def get_filter_sql (base_sql : List Char) (body : List (List Char × PyVal))
    (kwf : List (List Char)) (am : List (List Char × List Char))
    (pf : List (List Char)) (allowed : ScopeArg) (user : Option Int)
    (resolver : Int → List Int) : List Char × List PyVal :=
  let wp := _generate_where_clause body kwf am pf allowed user resolver
  if wp.1.isEmpty then (base_sql, wp.2)
  else if containsWordWhere base_sql then
    (pyStripTrailing base_sql ++ (" AND ").data ++ wp.1, wp.2)
  else (base_sql ++ (" WHERE ").data ++ wp.1, wp.2)

def find_pagination_suffix (page limit : Int) : List Char :=
  if limit != -1 then
    (" LIMIT ").data ++ (toString limit).data ++ (" OFFSET ").data ++
      (toString ((page - 1) * limit)).data
  else []

def file_find_base_query : List Char :=
  ("\n        SELECT id,name,size,suffix,file_type,url,is_public,create_time,update_time,creator,updater,org_id,org_name\n        FROM `file_resource`\n        WHERE (is_delete is NULL OR is_delete != 1)\n        ").data

def file_find_sql (body : List (List Char × PyVal)) (user : Option Int)
    (resolver : Int → List Int) (sorter : List (List Char × Int))
    (page limit : Int) : List Char :=
  let fp := get_filter_sql file_find_base_query body [("name").data] []
    [("id").data] ScopeArg.sNone user resolver
  let order_by := get_sorter_sql sorter []
  let q1 := if order_by.isEmpty then fp.1 else fp.1 ++ ' ' :: order_by
  q1 ++ find_pagination_suffix page limit

def valShape (v : PyVal) : Bool × Bool × Bool := (pyIsEmptyFilter v, isPair v, pyTruthy v)

def bodyShape (body : List (List Char × PyVal)) : List (List Char × (Bool × Bool × Bool)) :=
  body.map (fun kv => (kv.1, valShape kv.2))

def scopeShape : ScopeArg → Option Nat
  | .sList l => some l.length
  | _ => none

structure OrgRow where
  id : Int
  org_id : Int
  name : List Char

def cteAnchor (tbl : List OrgRow) (root : Int) : Finset Int :=
  ((tbl.filter (fun o => o.id == root)).map (fun o => o.id)).toFinset

def childIds (tbl : List OrgRow) (s : Finset Int) : Finset Int :=
  ((tbl.filter (fun o => decide (o.org_id ∈ s))).map (fun o => o.id)).toFinset

def cteClosure (tbl : List OrgRow) (root : Int) : Nat → Finset Int
  | 0 => cteAnchor tbl root
  | n + 1 => cteClosure tbl root n ∪ childIds tbl (cteClosure tbl root n)

def org_tree_ids (tbl : List OrgRow) (root : Int) : Finset Int :=
  cteClosure tbl root tbl.length

def get_user_organizations (tbl : List OrgRow) (cache : Finset Int) (org : Int) :
    Finset Int × Finset Int :=
  if cache.Nonempty then (cache, cache)
  else
    let s := org_tree_ids tbl org
    if s.Nonempty then (s, s) else (s, cache)

def orgEdge (tbl : List OrgRow) (a b : Int) : Prop :=
  ∃ row ∈ tbl, row.org_id = a ∧ row.id = b

def cteUp (tbl : List OrgRow) (start : Int) : Nat → List (OrgRow × Nat)
  | 0 => (tbl.filter (fun o => o.id == start)).map (fun o => (o, 1))
  | n + 1 => (cteUp tbl start n).flatMap (fun c =>
      if c.1.org_id != 0 && c.2 < 10 then
        (tbl.filter (fun p => p.id == c.1.org_id)).map (fun p => (p, c.2 + 1))
      else [])

def hierarchyRows (tbl : List OrgRow) (start : Int) : List (OrgRow × Nat) :=
  ((List.range 10).reverse).flatMap (cteUp tbl start)

def get_org_hierarchy (tbl : List OrgRow) (start : Int) :
    List (List Char) × List (List Char) :=
  ((hierarchyRows tbl start).filterMap
      (fun r => if r.1.id != 0 then some r.1.name else none),
    ("0").data :: (hierarchyRows tbl start).map (fun r => (toString r.1.id).data))

structure FileRow where
  id : Int
  org_id : Int
  is_delete : Int

inductive DbEvent where
  | evOrgLookup (org : Int)
  | evBegin
  | evExec (sql : List Char) (params : List PyVal)
  | evCommit
  | evRollback

inductive DelErr where
  | unauthorized
  | partialAuth (missing : Nat)
  | runtimeError

def applyLogicalDelete (rows : List FileRow) (ids : List Int)
    (restrict : Option (Finset Int)) : List FileRow :=
  rows.map (fun r =>
    if ids.contains r.id && (match restrict with
        | some allowed => decide (r.org_id ∈ allowed)
        | none => true) then
      { r with is_delete := 1 }
    else r)

def changedCount (rows : List FileRow) (ids : List Int)
    (restrict : Option (Finset Int)) : Nat :=
  (rows.filter (fun r =>
    ids.contains r.id && (match restrict with
      | some allowed => decide (r.org_id ∈ allowed)
      | none => true) && (r.is_delete != 1))).length

def deleteSqlText (table : List Char) (nIds nOrgs : Nat) (withOrg : Bool) : List Char :=
  ("\n            UPDATE ").data ++ table ++
  ("\n            SET is_delete = %s\n            WHERE id IN (").data ++
  joinSepChars ([',', ' ']) (List.replicate nIds (("%s").data)) ++
  (")\n            ").data ++
  (if withOrg then
    ("AND org_id IN (").data ++
      joinSepChars ([',', ' ']) (List.replicate nOrgs (("%s").data)) ++ [')']
  else [])

structure DelOutcome where
  result : Except DelErr Nat
  cache : Finset Int
  rows : List FileRow
  events : List DbEvent

def executor_delete (table : List Char) (sys : List OrgRow) (cache : Finset Int)
    (rows : List FileRow) (ids : List Int) (current_org_id : Option Int) : DelOutcome :=
  if ids.isEmpty then ⟨.ok 0, cache, rows, []⟩
  else
    match current_org_id with
    | some o =>
      let lk := get_user_organizations sys cache o
      if lk.1 = ∅ then
        ⟨.error .unauthorized, lk.2, rows, [.evOrgLookup o]⟩
      else
        let sql := deleteSqlText table ids.length lk.1.card true
        let params := PyVal.vInt 1 :: ids.map PyVal.vInt ++
          (lk.1.sort (· ≤ ·)).map PyVal.vInt
        let rows2 := applyLogicalDelete rows ids (some lk.1)
        let affected := changedCount rows ids (some lk.1)
        let evs := [DbEvent.evOrgLookup o, .evBegin, .evExec sql params, .evCommit]
        if affected ≠ ids.length then
          ⟨.error (.partialAuth (ids.length - affected)), lk.2, rows2, evs⟩
        else ⟨.ok affected, lk.2, rows2, evs⟩
    | none =>
      let sql := deleteSqlText table ids.length 0 false
      let params := PyVal.vInt 1 :: ids.map PyVal.vInt
      let rows2 := applyLogicalDelete rows ids none
      let affected := changedCount rows ids none
      let evs := [DbEvent.evBegin, .evExec sql params, .evCommit]
      if affected ≠ ids.length then
        ⟨.error (.partialAuth (ids.length - affected)), cache, rows2, evs⟩
      else ⟨.ok affected, cache, rows2, evs⟩

def _execute_read {α : Type} (sql : List Char) (params : List PyVal)
    (outcome : Except (List Char) α) : (α ⊕ List Char) × List DbEvent :=
  match outcome with
  | .ok r => (Sum.inl r, [.evBegin, .evExec sql params])
  | .error e => (Sum.inr e, [.evBegin, .evRollback])

def fetch_total (sql : List Char) (params : List PyVal)
    (outcome : Except (List Char) Int) : Int × List DbEvent :=
  match _execute_read sql params outcome with
  | (Sum.inl n, ev) => (n, ev)
  | (Sum.inr _, ev) => (0, ev)

def RowDict : Type := List (List Char × PyVal)

def fetch_one (sql : List Char) (params : List PyVal)
    (outcome : Except (List Char) (Option RowDict)) : Option RowDict × List DbEvent :=
  match _execute_read sql params outcome with
  | (Sum.inl r, ev) => (r, ev)
  | (Sum.inr _, ev) => (none, ev)

def fetch_all (sql : List Char) (params : List PyVal)
    (outcome : Except (List Char) (List RowDict)) : List RowDict × List DbEvent :=
  match _execute_read sql params outcome with
  | (Sum.inl rs, ev) => (rs, ev)
  | (Sum.inr _, ev) => ([], ev)

theorem char_toNat_ofNat_of_lt {n : Nat} (h : n < 55296) : (Char.ofNat n).toNat = n := by
  rw [Char.ofNat, dif_pos (Or.inl h)]
  simp [Char.ofNatAux, Char.toNat, UInt32.toNat]

theorem wordChar_not_upper {c : Char} (h : isWordChar c = true) : c.isUpper = false := by
  simp [isWordChar, isLowerAlpha, isDigitA, Char.toNat, UInt32.toNat] at h
  simp [Char.isUpper, UInt32.le_def, BitVec.le_def]
  omega

theorem wordChar_toLower {c : Char} (h : isWordChar c = true) : c.toLower = c := by
  simp [isWordChar, isLowerAlpha, isDigitA, Char.toNat, UInt32.toNat] at h
  rw [Char.toLower, if_neg]
  simp [Char.toNat, UInt32.toNat]
  omega

theorem lowerAlpha_toNat {c : Char} (h : isLowerAlpha c = true) :
    97 ≤ c.toNat ∧ c.toNat ≤ 122 := by
  simpa [isLowerAlpha, Bool.and_eq_true, decide_eq_true_eq] using h

theorem lower_toUpper_toNat {c : Char} (h : isLowerAlpha c = true) :
    (c.toUpper).toNat = c.toNat - 32 := by
  obtain ⟨h1, h2⟩ := lowerAlpha_toNat h
  simp only [Char.toUpper]
  rw [if_pos ⟨h1, h2⟩]
  exact char_toNat_ofNat_of_lt (by omega)

theorem lower_toUpper_isUpper {c : Char} (h : isLowerAlpha c = true) :
    (c.toUpper).isUpper = true := by
  obtain ⟨h1, h2⟩ := lowerAlpha_toNat h
  have h3 := lower_toUpper_toNat h
  simp [Char.isUpper, UInt32.le_def, BitVec.le_def]
  simp [Char.toNat, UInt32.toNat] at h1 h2 h3
  omega

theorem lower_toUpper_toLower {c : Char} (h : isLowerAlpha c = true) :
    (c.toUpper).toLower = c := by
  obtain ⟨h1, h2⟩ := lowerAlpha_toNat h
  have h3 := lower_toUpper_toNat h
  simp only [Char.toLower]
  rw [if_pos (by omega : Char.toNat c.toUpper ≥ 65 ∧ Char.toNat c.toUpper ≤ 90)]
  have h4 : c.toUpper.toNat + 32 = c.toNat := by omega
  rw [h4, Char.ofNat_toNat]

-- ===== camel_to_snake / snake_to_camel embedding =====

theorem wordChar_ne_underscore {c : Char} (h : isWordChar c = true) : c ≠ '_' := by
  intro he; subst he; exact absurd h (by decide)

theorem pySplit_cons_sep (sep : Char) (s : List Char) :
    pySplit sep (sep :: s) = [] :: pySplit sep s := by
  simp [pySplit]

theorem pySplit_word_append {sep : Char} {w s : List Char} {p : List Char}
    {ps : List (List Char)} (hw : ∀ c ∈ w, c ≠ sep)
    (h : pySplit sep s = p :: ps) :
    pySplit sep (w ++ s) = (w ++ p) :: ps := by
  induction w with
  | nil => simpa using h
  | cons c cs ih =>
    have hc : c ≠ sep := hw c (by simp)
    have ihh := ih (fun x hx => hw x (by simp [hx]))
    simp only [List.cons_append, pySplit, if_neg hc, List.append_eq, ihh]

theorem pySplit_renderSnake {w0 : List Char} {ws : List (List Char)}
    (h0 : ∀ c ∈ w0, isWordChar c = true)
    (hs : ∀ w ∈ ws, ∀ c ∈ w, isWordChar c = true) :
    pySplit '_' (renderSnake w0 ws) = w0 :: ws := by
  induction ws generalizing w0 with
  | nil =>
    simp only [renderSnake, List.flatMap_nil, List.append_nil]
    have : pySplit '_' (w0 ++ []) = (w0 ++ []) :: [] := by
      apply pySplit_word_append (fun c hc => wordChar_ne_underscore (h0 c hc))
      simp [pySplit]
    simpa using this
  | cons w ws ih =>
    have hrec := @ih w (fun c hc => hs w (by simp) c hc)
      (fun v hv c hc => hs v (by simp [hv]) c hc)
    simp only [renderSnake] at hrec ⊢
    simp only [List.flatMap_cons]
    have : w0 ++ ('_' :: w ++ ws.flatMap (fun v => '_' :: v)) =
        w0 ++ ('_' :: (w ++ ws.flatMap (fun v => '_' :: v))) := by simp
    rw [show w0 ++ (('_' :: w) ++ ws.flatMap (fun v => '_' :: v)) =
        w0 ++ ('_' :: (w ++ ws.flatMap (fun v => '_' :: v))) by simp]
    have hmain := pySplit_word_append
      (fun c hc => wordChar_ne_underscore (h0 c hc))
      (show pySplit '_' ('_' :: (w ++ ws.flatMap fun v => '_' :: v)) = [] :: (w :: ws) by
        rw [pySplit_cons_sep, hrec])
    simpa using hmain

theorem validWord_chars {w : List Char} (h : validWord w = true) :
    ∀ c ∈ w, isWordChar c = true := by
  cases w with
  | nil => simp [validWord] at h
  | cons c cs =>
    simp only [validWord, Bool.and_eq_true, List.all_eq_true] at h
    intro x hx
    rcases List.mem_cons.mp hx with rfl | hx
    · simp [isWordChar, h.1]
    · exact h.2 x hx

theorem snake_to_camel_render {w0 : List Char} {ws : List (List Char)}
    (h0 : validWord w0 = true) (hs : ∀ w ∈ ws, validWord w = true) :
    snake_to_camel (renderSnake w0 ws) = renderCamel w0 ws := by
  rw [snake_to_camel, pySplit_renderSnake (validWord_chars h0)
    (fun w hw => validWord_chars (hs w hw))]
  rfl

theorem csStep_wordlist {l : List Char} (h : ∀ c ∈ l, isWordChar c = true) :
    l.flatMap csStep = l := by
  induction l with
  | nil => rfl
  | cons c cs ih =>
    rw [List.flatMap_cons, ih (fun x hx => h x (by simp [hx]))]
    rw [csStep, if_neg (by rw [wordChar_not_upper (h c (by simp))]; simp)]
    rfl

theorem csStep_capitalize {w : List Char} (h : validWord w = true) :
    (pyCapitalize w).flatMap csStep = '_' :: w := by
  cases w with
  | nil => simp [validWord] at h
  | cons c cs =>
    simp only [validWord, Bool.and_eq_true, List.all_eq_true] at h
    have hmap : cs.map Char.toLower = cs := by
      rw [List.map_congr_left (fun x hx => wordChar_toLower (h.2 x hx)), List.map_id']
    rw [pyCapitalize, hmap, List.flatMap_cons, csStep_wordlist h.2,
      csStep, if_pos (lower_toUpper_isUpper h.1), lower_toUpper_toLower h.1]
    rfl

theorem camel_core_render {w0 : List Char} {ws : List (List Char)}
    (h0 : validWord w0 = true) (hs : ∀ w ∈ ws, validWord w = true) :
    (renderCamel w0 ws).flatMap csStep = renderSnake w0 ws := by
  rw [renderCamel, renderSnake, List.flatMap_append,
    csStep_wordlist (validWord_chars h0)]
  congr 1
  induction ws with
  | nil => rfl
  | cons w ws ih =>
    rw [List.map_cons, List.flatten_cons, List.flatMap_cons, List.flatMap_append,
      csStep_capitalize (hs w (by simp)), ih (fun v hv => hs v (by simp [hv]))]

theorem camel_to_snake_render {w0 : List Char} {ws : List (List Char)}
    (h0 : validWord w0 = true) (hs : ∀ w ∈ ws, validWord w = true) :
    camel_to_snake (renderCamel w0 ws) = renderSnake w0 ws := by
  rw [camel_to_snake, camel_core_render h0 hs]
  cases w0 with
  | nil => simp [validWord] at h0
  | cons c cs =>
    simp only [validWord, Bool.and_eq_true] at h0
    have hne : (c == '_') = false := by
      have := wordChar_ne_underscore (show isWordChar c = true by simp [isWordChar, h0.1])
      simpa using this
    simp [renderSnake, List.dropWhile_cons, hne]

/-- Counterexample for claim C4 as stated: the snake-case identifier a_2b is made of
the lowercase-with-digits words a and 2b, yet camel_to_snake (snake_to_camel "a_2b")
collapses to "a2b", so the second round-trip of the claim fails when a word starts
with a digit. -/
theorem naming_roundtrip_digit_word_cex :
    validWordChars ['a'] = true ∧ validWordChars ['2','b'] = true ∧
    camel_to_snake (snake_to_camel (renderSnake ['a'] [['2','b']])) ≠
      renderSnake ['a'] [['2','b']] := by decide

/-- Claim C4 (amended): for identifiers whose words each start with a lowercase ASCII
letter and continue with lowercase letters or digits, camel_to_snake and snake_to_camel
are mutually inverse: the snake rendering round-trips through snake_to_camel and the
camel rendering round-trips through camel_to_snake.  Both functions are total Lean
functions, hence deterministic. -/
theorem naming_roundtrip (w0 : List Char) (ws : List (List Char))
    (h0 : validWord w0 = true) (hs : ∀ w ∈ ws, validWord w = true) :
    snake_to_camel (camel_to_snake (renderCamel w0 ws)) = renderCamel w0 ws ∧
    camel_to_snake (snake_to_camel (renderSnake w0 ws)) = renderSnake w0 ws := by
  constructor
  · rw [camel_to_snake_render h0 hs, snake_to_camel_render h0 hs]
  · rw [snake_to_camel_render h0 hs, camel_to_snake_render h0 hs]

/-- Witness for claim C4 at the concrete identifier foo_bar / fooBar. -/
theorem naming_roundtrip_witness :
    snake_to_camel (camel_to_snake (renderCamel ['f','o','o'] [['b','a','r']])) =
      renderCamel ['f','o','o'] [['b','a','r']] ∧
    camel_to_snake (snake_to_camel (renderSnake ['f','o','o'] [['b','a','r']])) =
      renderSnake ['f','o','o'] [['b','a','r']] :=
  naming_roundtrip ['f','o','o'] [['b','a','r']] (by decide) (by decide)

-- ===== get_sorter_sql embedding =====

theorem asc_ne_desc (f g : List Char) : f ++ ascSuffix ≠ g ++ descSuffix := by
  intro h
  have h2 := congrArg List.reverse h
  rw [List.reverse_append, List.reverse_append,
    (by decide : ascSuffix.reverse = ['C','S','A',' ']),
    (by decide : descSuffix.reverse = ['C','S','E','D',' '])] at h2
  simp [List.cons_eq_cons] at h2

theorem orderClause_eq_ctDesc (f : List Char) :
    orderClause f = ctDesc ↔ f = '-' :: ctChars := by
  constructor
  · intro h
    cases f with
    | nil => exact absurd h (by decide)
    | cons c g =>
      by_cases hc : c = '-'
      · subst hc
        rw [orderClause, if_pos rfl] at h
        rw [List.append_cancel_right h]
      · rw [orderClause, if_neg hc] at h
        exact absurd h (asc_ne_desc _ _)
  · intro h; subst h; decide

theorem count_map_orderClause (o : List (List Char)) :
    (o.map orderClause).count ctDesc = o.count ('-' :: ctChars) := by
  induction o with
  | nil => rfl
  | cons f fs ih =>
    rw [List.map_cons, List.count_cons, List.count_cons, ih]
    by_cases h : f = '-' :: ctChars
    · subst h
      simp [orderClause_eq_ctDesc]
    · have h2 : orderClause f ≠ ctDesc := fun hc => h ((orderClause_eq_ctDesc f).mp hc)
      simp [h, h2]

theorem upper_toLower_toNat {c : Char} (h : c.isUpper = true) :
    (c.toLower).toNat = c.toNat + 32 := by
  simp [Char.isUpper, UInt32.le_def, BitVec.le_def] at h
  simp only [Char.toLower]
  rw [if_pos (by simp [Char.toNat, UInt32.toNat]; omega :
    Char.toNat c ≥ 65 ∧ Char.toNat c ≤ 90)]
  exact char_toNat_ofNat_of_lt (by simp [Char.toNat, UInt32.toNat]; omega)

theorem keyChar_snake_head {k : List Char} (hk : ∀ c ∈ k, keyChar c = true) :
    camel_to_snake k ≠ '-' :: ctChars := by
  intro h
  have hmem : '-' ∈ camel_to_snake k := by rw [h]; simp
  have hmem2 : '-' ∈ k.flatMap csStep :=
    (List.dropWhile_sublist (fun c => c == '_')).subset hmem
  rw [List.mem_flatMap] at hmem2
  obtain ⟨c, hc, hcs⟩ := hmem2
  have hkc := hk c hc
  rw [csStep] at hcs
  by_cases hu : c.isUpper = true
  · rw [if_pos hu] at hcs
    have h32 := upper_toLower_toNat hu
    simp [Char.isUpper, UInt32.le_def, BitVec.le_def] at hu
    simp at hcs
    rw [← hcs] at h32
    simp [Char.toNat, UInt32.toNat] at h32
    omega
  · rw [if_neg hu] at hcs
    simp at hcs
    subst hcs
    rw [keyChar, Bool.or_eq_true] at hkc
    rcases hkc with h2 | h2
    · exact hu h2
    · exact absurd h2 (by decide)

theorem sorterStep_ct (o : List (List Char)) :
    sorterStep [] o createTimeKey (-1) =
      (o.filter (fun f => !(containsSub ctChars f))) ++ ['-' :: ctChars] := by
  simp only [sorterStep]
  rw [if_pos (by decide : (camel_to_snake createTimeKey == ctChars) = true),
    if_neg (by decide : ¬(((-1 : Int) == 1) = true)),
    if_pos (by decide : ((-1 : Int) == -1) = true),
    (by decide : qualifyField [] (camel_to_snake createTimeKey) = ctChars)]

theorem sorterStep_ct_count (o : List (List Char)) :
    (sorterStep [] o createTimeKey (-1)).count ('-' :: ctChars) = 1 ∧
    (sorterStep [] o createTimeKey (-1)).any (containsSub ctChars) = true := by
  rw [sorterStep_ct]
  constructor
  · rw [List.count_append]
    have h0 : (o.filter (fun f => !(containsSub ctChars f))).count ('-' :: ctChars) = 0 := by
      rw [List.count_eq_zero]
      intro hm
      have := (List.mem_filter.mp hm).2
      rw [(by decide : containsSub ctChars ('-' :: ctChars) = true)] at this
      simp at this
    rw [h0]
    decide
  · rw [List.any_append]
    have : List.any ['-' :: ctChars] (containsSub ctChars) = true := by decide
    simp [this]

theorem sorterStep_post {o : List (List Char)} {k : List Char} {d : Int}
    (hk : ∀ c ∈ k, keyChar c = true) (hne : camel_to_snake k ≠ ctChars)
    (hcount : o.count ('-' :: ctChars) = 1)
    (hany : o.any (containsSub ctChars) = true) :
    (sorterStep [] o k d).count ('-' :: ctChars) = 1 ∧
    (sorterStep [] o k d).any (containsSub ctChars) = true := by
  simp only [sorterStep]
  rw [if_neg (by simp [hne] : ¬((camel_to_snake k == ctChars) = true))]
  have hq : qualifyField [] (camel_to_snake k) = camel_to_snake k := rfl
  rw [hq]
  have hc1 : ([camel_to_snake k].count ('-' :: ctChars)) = 0 := by
    rw [List.count_eq_zero]
    intro hm
    simp at hm
    exact keyChar_snake_head hk hm.symm
  have hc2 : (['-' :: camel_to_snake k].count ('-' :: ctChars)) = 0 := by
    rw [List.count_eq_zero]
    intro hm
    simp at hm
    exact hne hm.symm
  by_cases h1 : (d == 1) = true
  · rw [if_pos h1]
    refine ⟨?_, ?_⟩
    · rw [List.count_append, hcount, hc1]
    · rw [List.any_append, hany]; rfl
  · rw [if_neg h1]
    by_cases h2 : (d == -1) = true
    · rw [if_pos h2]
      refine ⟨?_, ?_⟩
      · rw [List.count_append, hcount, hc2]
      · rw [List.any_append, hany]; rfl
    · rw [if_neg h2]
      exact ⟨hcount, hany⟩

theorem foldPost (post : List (List Char × Int))
    (hpost : ∀ kv ∈ post, (∀ c ∈ kv.1, keyChar c = true) ∧ camel_to_snake kv.1 ≠ ctChars)
    {o : List (List Char)}
    (hcount : o.count ('-' :: ctChars) = 1)
    (hany : o.any (containsSub ctChars) = true) :
    (post.foldl (fun acc kv => sorterStep [] acc kv.1 kv.2) o).count ('-' :: ctChars) = 1 ∧
    (post.foldl (fun acc kv => sorterStep [] acc kv.1 kv.2) o).any (containsSub ctChars) = true := by
  induction post generalizing o with
  | nil => exact ⟨hcount, hany⟩
  | cons kv rest ih =>
    rw [List.foldl_cons]
    have hstep := @sorterStep_post o kv.1 kv.2 (hpost kv (by simp)).1
      (hpost kv (by simp)).2 hcount hany
    exact ih (fun v hv => hpost v (by simp [hv])) hstep.1 hstep.2

/-- Claim C7 (amended): for every sorter containing the explicit directive
(createTime, descending), provided no later key also maps to the storage name
create_time and later keys are alphanumeric identifiers, the compiled clause list
contains exactly one create_time DESC directive, and get_sorter_sql is the
"ORDER BY"-joined rendering of that clause list (find-handler usage: empty alias map). -/
theorem sorter_create_time_unique (pre post : List (List Char × Int))
    (hpost : ∀ kv ∈ post, (∀ c ∈ kv.1, keyChar c = true) ∧ camel_to_snake kv.1 ≠ ctChars) :
    (order_clauses [] (pre ++ (createTimeKey, -1) :: post)).count ctDesc = 1 ∧
    get_sorter_sql (pre ++ (createTimeKey, -1) :: post) [] =
      orderByChars ++ joinCommaSp (order_clauses [] (pre ++ (createTimeKey, -1) :: post)) := by
  have hbuild : buildOrdering [] (pre ++ (createTimeKey, -1) :: post) =
      post.foldl (fun acc kv => sorterStep [] acc kv.1 kv.2)
        (sorterStep [] (pre.foldl (fun acc kv => sorterStep [] acc kv.1 kv.2) []) createTimeKey (-1)) := by
    rw [buildOrdering, List.foldl_append, List.foldl_cons]
  have hct := sorterStep_ct_count (pre.foldl (fun acc kv => sorterStep [] acc kv.1 kv.2) [])
  have hfold := foldPost post hpost hct.1 hct.2
  have hcount : (order_clauses [] (pre ++ (createTimeKey, -1) :: post)).count ctDesc = 1 := by
    rw [order_clauses, count_map_orderClause, hbuild, withDefaultOrdering, if_pos hfold.2]
    exact hfold.1
  refine ⟨hcount, ?_⟩
  have hne : (order_clauses [] (pre ++ (createTimeKey, -1) :: post)).isEmpty = false := by
    cases hcl : order_clauses [] (pre ++ (createTimeKey, -1) :: post) with
    | nil => rw [hcl] at hcount; simp at hcount
    | cons x xs => rfl
  simp only [get_sorter_sql]
  rw [if_neg (by rw [hne]; simp)]

/-- Counterexample for claim C7 as stated: the sorter {"createTime": -1, "create_time": 1}
contains the ("createTime", descending) directive, yet the compiled ORDER BY holds zero
create_time DESC directives (the later create_time key removes and replaces it with ASC). -/
theorem sorter_create_time_cex :
    ((createTimeKey, (-1 : Int)) ∈ [(createTimeKey, (-1 : Int)), (ctChars, 1)]) ∧
    (order_clauses [] [(createTimeKey, -1), (ctChars, 1)]).count ctDesc = 0 := by decide

theorem dictGet_shape {b1 b2 : List (List Char × PyVal)} (h : bodyShape b1 = bodyShape b2)
    (k : List Char) : (dictGet b1 k).map valShape = (dictGet b2 k).map valShape := by
  induction b1 generalizing b2 with
  | nil =>
    have hb : b2 = [] := by simpa [bodyShape] using h.symm
    subst hb; rfl
  | cons kv t ih =>
    cases b2 with
    | nil => simp [bodyShape] at h
    | cons kv2 t2 =>
      simp only [bodyShape, List.map_cons, List.cons.injEq, Prod.mk.injEq] at h
      obtain ⟨⟨hk, hv⟩, ht⟩ := h
      rw [dictGet, dictGet, hk]
      by_cases hc : (kv2.1 == k) = true
      · rw [if_pos hc, if_pos hc]
        simpa using hv
      · rw [if_neg hc, if_neg hc]
        exact ih ht

theorem isPair_decomp {v : PyVal} (h : isPair v = true) : ∃ a b, v = .vList [a, b] := by
  cases v with
  | vList l =>
    simp only [isPair, beq_iff_eq] at h
    obtain ⟨a, b, rfl⟩ := List.length_eq_two.mp h
    exact ⟨a, b, rfl⟩
  | vNone => simp [isPair] at h
  | vStr s => simp [isPair] at h
  | vInt n => simp [isPair] at h

theorem fieldCond_shape {am : List (List Char × List Char)} {pf : List (List Char)}
    (k : List Char) {v1 v2 : PyVal} (hv : valShape v1 = valShape v2) :
    (fieldCond am pf (k, v1)).map Prod.fst = (fieldCond am pf (k, v2)).map Prod.fst := by
  simp only [valShape, Prod.mk.injEq] at hv
  obtain ⟨he, hp, _⟩ := hv
  dsimp only [fieldCond]
  by_cases hkw : (k == ("keywords").data) = true
  · rw [if_pos hkw, if_pos hkw]
  · rw [if_neg hkw, if_neg hkw]
    by_cases hemp : pyIsEmptyFilter v1 = true
    · rw [if_pos hemp, if_pos (show pyIsEmptyFilter v2 = true by rw [← he]; exact hemp)]
    · rw [if_neg hemp, if_neg (show ¬(pyIsEmptyFilter v2 = true) by rw [← he]; exact hemp)]
      by_cases htr : is_valid_time_range k v1 = true
      · have htr2 : is_valid_time_range k v2 = true := by
          rw [is_valid_time_range] at htr ⊢
          rw [← hp]; exact htr
        rw [if_pos htr, if_pos htr2]
        have hp1 : isPair v1 = true := by
          rw [is_valid_time_range, Bool.and_eq_true] at htr; exact htr.2
        obtain ⟨a1, b1, rfl⟩ := isPair_decomp hp1
        obtain ⟨a2, b2, rfl⟩ := isPair_decomp (hp ▸ hp1)
        rfl
      · have htr2 : ¬(is_valid_time_range k v2 = true) := by
          rw [is_valid_time_range] at htr ⊢
          rw [← hp]; exact htr
        rw [if_neg htr, if_neg htr2]
        by_cases hpr : pf.contains (camel_to_snake k) = true
        · rw [if_pos hpr, if_pos hpr]; rfl
        · rw [if_neg hpr, if_neg hpr]; rfl

theorem filterMap_fieldCond_shape {am : List (List Char × List Char)}
    {pf : List (List Char)} {b1 b2 : List (List Char × PyVal)}
    (h : bodyShape b1 = bodyShape b2) :
    (b1.filterMap (fieldCond am pf)).map Prod.fst =
      (b2.filterMap (fieldCond am pf)).map Prod.fst := by
  induction b1 generalizing b2 with
  | nil =>
    have hb : b2 = [] := by simpa [bodyShape] using h.symm
    subst hb; rfl
  | cons kv t ih =>
    cases b2 with
    | nil => simp [bodyShape] at h
    | cons kv2 t2 =>
      simp only [bodyShape, List.map_cons, List.cons.injEq, Prod.mk.injEq] at h
      obtain ⟨⟨hk, hv⟩, ht⟩ := h
      rw [List.filterMap_cons, List.filterMap_cons]
      have hfc : (fieldCond am pf kv).map Prod.fst = (fieldCond am pf kv2).map Prod.fst := by
        obtain ⟨k1, w1⟩ := kv
        obtain ⟨k2, w2⟩ := kv2
        subst hk
        exact fieldCond_shape k1 hv
      cases hc1 : fieldCond am pf kv with
      | none =>
        rw [hc1] at hfc
        cases hc2 : fieldCond am pf kv2 with
        | none => exact ih ht
        | some p => rw [hc2] at hfc; simp at hfc
      | some p =>
        rw [hc1] at hfc
        cases hc2 : fieldCond am pf kv2 with
        | none => rw [hc2] at hfc; simp at hfc
        | some p2 =>
          rw [hc2] at hfc
          simp only [Option.map_some', Option.some.injEq] at hfc
          rw [List.map_cons, List.map_cons, hfc, ih ht]

theorem kwClause_shape {b1 b2 : List (List Char × PyVal)} {kwf : List (List Char)}
    {am : List (List Char × List Char)} (h : bodyShape b1 = bodyShape b2) :
    (kwClause b1 kwf am).map Prod.fst = (kwClause b2 kwf am).map Prod.fst := by
  have hd := dictGet_shape h (("keywords").data)
  rw [kwClause, kwClause]
  cases hc1 : dictGet b1 (("keywords").data) with
  | none =>
    rw [hc1] at hd
    cases hc2 : dictGet b2 (("keywords").data) with
    | none => rfl
    | some kw2 => rw [hc2] at hd; simp at hd
  | some kw1 =>
    rw [hc1] at hd
    cases hc2 : dictGet b2 (("keywords").data) with
    | none => rw [hc2] at hd; simp at hd
    | some kw2 =>
      rw [hc2] at hd
      simp only [Option.map_some', Option.some.injEq, valShape, Prod.mk.injEq] at hd
      obtain ⟨_, _, htr⟩ := hd
      dsimp only
      rw [htr]
      by_cases hb : (pyTruthy kw2 && !kwf.isEmpty) = true
      · rw [if_pos hb, if_pos hb]
        rfl
      · rw [if_neg hb, if_neg hb]

theorem scopeCond_shape {am : List (List Char × List Char)} {rs1 rs2 : ScopeArg}
    (h : scopeShape rs1 = scopeShape rs2) :
    (scopeCond am rs1).map Prod.fst = (scopeCond am rs2).map Prod.fst := by
  cases rs1 with
  | sList l1 =>
    cases rs2 with
    | sList l2 =>
      simp only [scopeShape, Option.some.injEq] at h
      simp only [scopeCond, Option.map_some', Option.some.injEq]
      rw [List.map_const', List.map_const', h]
    | sNone => simp [scopeShape] at h
    | sFalse => simp [scopeShape] at h
  | sNone =>
    cases rs2 with
    | sList l2 => simp [scopeShape] at h
    | sNone => rfl
    | sFalse => rfl
  | sFalse =>
    cases rs2 with
    | sList l2 => simp [scopeShape] at h
    | sNone => rfl
    | sFalse => rfl

theorem option_toList_map {α β : Type} (o : Option (α × β)) :
    o.toList.map Prod.fst = (o.map Prod.fst).toList := by
  cases o <;> rfl

theorem where_clause_text_shape {b1 b2 : List (List Char × PyVal)}
    {kwf pf : List (List Char)} {am : List (List Char × List Char)}
    {s1 s2 : ScopeArg} {u1 u2 : Option Int} {r1 r2 : Int → List Int}
    (hbody : bodyShape b1 = bodyShape b2)
    (hscope : scopeShape (resolveScope s1 u1 r1) = scopeShape (resolveScope s2 u2 r2)) :
    (_generate_where_clause b1 kwf am pf s1 u1 r1).1 =
      (_generate_where_clause b2 kwf am pf s2 u2 r2).1 := by
  have h1 := @kwClause_shape b1 b2 kwf am hbody
  have h2 := @filterMap_fieldCond_shape am pf b1 b2 hbody
  have h3 := @scopeCond_shape am _ _ hscope
  simp only [_generate_where_clause]
  rw [List.map_append, List.map_append, List.map_append, List.map_append,
    option_toList_map, option_toList_map, option_toList_map, option_toList_map,
    h1, h2, h3]

theorem filter_sql_text_shape {base_sql : List Char}
    {b1 b2 : List (List Char × PyVal)}
    {kwf pf : List (List Char)} {am : List (List Char × List Char)}
    {s1 s2 : ScopeArg} {u1 u2 : Option Int} {r1 r2 : Int → List Int}
    (hbody : bodyShape b1 = bodyShape b2)
    (hscope : scopeShape (resolveScope s1 u1 r1) = scopeShape (resolveScope s2 u2 r2)) :
    (get_filter_sql base_sql b1 kwf am pf s1 u1 r1).1 =
      (get_filter_sql base_sql b2 kwf am pf s2 u2 r2).1 := by
  have ht := @where_clause_text_shape b1 b2 kwf pf am s1 s2 u1 u2 r1 r2 hbody hscope
  simp only [get_filter_sql]
  rw [← ht]
  by_cases hg : (_generate_where_clause b1 kwf am pf s1 u1 r1).1.isEmpty = true
  · rw [if_pos hg, if_pos hg]
  · rw [if_neg hg, if_neg hg]
    by_cases hw : containsWordWhere base_sql = true
    · rw [if_pos hw, if_pos hw]
    · rw [if_neg hw, if_neg hw]

/-- Claim C1: the query compiler places filter/range/keyword/scope values only in the
positional parameter list.  Two compilations that differ only in the values — same key
sequence, same value shapes (emptiness, two-element-list, truthiness), same resolved
scope size — produce identical SQL text at the WHERE-clause level, at the
get_filter_sql level, and for the fully assembled find query including its
pagination suffix. -/
theorem query_compiler_value_independent
    (b1 b2 : List (List Char × PyVal)) (kwf pf : List (List Char))
    (am : List (List Char × List Char)) (base_sql : List Char)
    (s1 s2 : ScopeArg) (u1 u2 : Option Int) (r1 r2 : Int → List Int)
    (sorter : List (List Char × Int)) (page limit : Int)
    (hbody : bodyShape b1 = bodyShape b2)
    (hscope : scopeShape (resolveScope s1 u1 r1) = scopeShape (resolveScope s2 u2 r2))
    (hfind : scopeShape (resolveScope ScopeArg.sNone u1 r1) =
      scopeShape (resolveScope ScopeArg.sNone u2 r2)) :
    (_generate_where_clause b1 kwf am pf s1 u1 r1).1 =
      (_generate_where_clause b2 kwf am pf s2 u2 r2).1 ∧
    (get_filter_sql base_sql b1 kwf am pf s1 u1 r1).1 =
      (get_filter_sql base_sql b2 kwf am pf s2 u2 r2).1 ∧
    file_find_sql b1 u1 r1 sorter page limit = file_find_sql b2 u2 r2 sorter page limit := by
  refine ⟨where_clause_text_shape hbody hscope, filter_sql_text_shape hbody hscope, ?_⟩
  have hfp := @filter_sql_text_shape file_find_base_query b1 b2 [("name").data]
    [("id").data] [] ScopeArg.sNone ScopeArg.sNone u1 u2 r1 r2 hbody hfind
  simp only [file_find_sql]
  rw [hfp]

/-- Witness for claim C1: bodies {"name": "alice"} and {"name": "bob;DROP"} with scopes
[1,2] and [7,9] compile to the identical SQL text. -/
theorem query_compiler_value_independent_witness :
    (_generate_where_clause [(("name").data, PyVal.vStr ("alice").data)] [] [] []
        (ScopeArg.sList [1, 2]) none (fun _ => [])).1 =
      (_generate_where_clause [(("name").data, PyVal.vStr ("bob;DROP").data)] [] [] []
        (ScopeArg.sList [7, 9]) none (fun _ => [])).1 ∧
    (get_filter_sql (("SELECT 1").data) [(("name").data, PyVal.vStr ("alice").data)] [] [] []
        (ScopeArg.sList [1, 2]) none (fun _ => [])).1 =
      (get_filter_sql (("SELECT 1").data) [(("name").data, PyVal.vStr ("bob;DROP").data)] [] [] []
        (ScopeArg.sList [7, 9]) none (fun _ => [])).1 ∧
    file_find_sql [(("name").data, PyVal.vStr ("alice").data)] none (fun _ => []) [] 2 10 =
      file_find_sql [(("name").data, PyVal.vStr ("bob;DROP").data)] none (fun _ => []) [] 2 10 :=
  query_compiler_value_independent _ _ _ _ _ _ _ _ _ _ _ _ _ 2 10
    (by decide) (by decide) (by decide)

-- ===== org hierarchy resolver =====

theorem cteClosure_succ (tbl : List OrgRow) (root : Int) (n : Nat) :
    cteClosure tbl root (n + 1) =
      cteClosure tbl root n ∪ childIds tbl (cteClosure tbl root n) := rfl

theorem cteClosure_mono_succ (tbl : List OrgRow) (root : Int) (n : Nat) :
    cteClosure tbl root n ⊆ cteClosure tbl root (n + 1) :=
  Finset.subset_union_left

theorem cteClosure_mono (tbl : List OrgRow) (root : Int) {m n : Nat} (h : m ≤ n) :
    cteClosure tbl root m ⊆ cteClosure tbl root n := by
  induction n with
  | zero => rw [Nat.le_zero.mp h]
  | succ k ih =>
    rcases Nat.lt_or_ge m (k + 1) with hlt | hge
    · exact (ih (Nat.lt_succ_iff.mp hlt)).trans (cteClosure_mono_succ tbl root k)
    · rw [Nat.le_antisymm h hge]

theorem cteClosure_subset_ids (tbl : List OrgRow) (root : Int) (n : Nat) :
    cteClosure tbl root n ⊆ (tbl.map (fun o => o.id)).toFinset := by
  induction n with
  | zero =>
    intro x hx
    rw [show cteClosure tbl root 0 = cteAnchor tbl root from rfl, cteAnchor,
      List.mem_toFinset] at hx
    rw [List.mem_toFinset]
    obtain ⟨o, ho, rfl⟩ := List.mem_map.mp hx
    exact List.mem_map.mpr ⟨o, (List.mem_filter.mp ho).1, rfl⟩
  | succ k ih =>
    intro x hx
    rw [cteClosure_succ] at hx
    rcases Finset.mem_union.mp hx with hx | hx
    · exact ih hx
    · rw [childIds, List.mem_toFinset] at hx
      rw [List.mem_toFinset]
      obtain ⟨o, ho, rfl⟩ := List.mem_map.mp hx
      exact List.mem_map.mpr ⟨o, (List.mem_filter.mp ho).1, rfl⟩

theorem cteClosure_stab {tbl : List OrgRow} {root : Int} {n : Nat}
    (h : cteClosure tbl root (n + 1) = cteClosure tbl root n) :
    ∀ m, n ≤ m → cteClosure tbl root m = cteClosure tbl root n := by
  intro m hm
  induction m with
  | zero => rw [Nat.le_zero.mp hm]
  | succ k ih =>
    rcases Nat.lt_or_ge k n with hlt | hge
    · have : n = k + 1 := Nat.le_antisymm hm hlt
      rw [this]
    · have hk := ih hge
      calc cteClosure tbl root (k + 1)
          = cteClosure tbl root k ∪ childIds tbl (cteClosure tbl root k) := cteClosure_succ tbl root k
        _ = cteClosure tbl root n ∪ childIds tbl (cteClosure tbl root n) := by rw [hk]
        _ = cteClosure tbl root (n + 1) := (cteClosure_succ tbl root n).symm
        _ = cteClosure tbl root n := h

theorem cteClosure_exists_stab (tbl : List OrgRow) (root : Int) :
    ∃ n, n ≤ tbl.length ∧ cteClosure tbl root (n + 1) = cteClosure tbl root n := by
  by_contra hcon
  push_neg at hcon
  have hgrow : ∀ n, n ≤ tbl.length + 1 → n ≤ (cteClosure tbl root n).card := by
    intro n
    induction n with
    | zero => intro _; exact Nat.zero_le _
    | succ k ih =>
      intro hk
      have hkk : k ≤ tbl.length := Nat.lt_succ_iff.mp hk
      have hne := hcon k hkk
      have hss : cteClosure tbl root k ⊂ cteClosure tbl root (k + 1) :=
        Finset.ssubset_iff_subset_ne.mpr ⟨cteClosure_mono_succ tbl root k, fun he => hne he.symm⟩
      have := Finset.card_lt_card hss
      have hik := ih (Nat.le_of_succ_le hk)
      omega
  have h1 := hgrow (tbl.length + 1) (Nat.le_refl _)
  have h2 : (cteClosure tbl root (tbl.length + 1)).card ≤ tbl.length := by
    calc (cteClosure tbl root (tbl.length + 1)).card
        ≤ ((tbl.map (fun o => o.id)).toFinset).card :=
          Finset.card_le_card (cteClosure_subset_ids tbl root _)
      _ ≤ (tbl.map (fun o => o.id)).length := List.toFinset_card_le _
      _ = tbl.length := List.length_map _ _
  omega

theorem cteClosure_le_final (tbl : List OrgRow) (root : Int) (k : Nat) :
    cteClosure tbl root k ⊆ org_tree_ids tbl root := by
  obtain ⟨n, hn, hstab⟩ := cteClosure_exists_stab tbl root
  rw [org_tree_ids]
  rcases le_or_lt k tbl.length with hk | hk
  · exact cteClosure_mono tbl root hk
  · rw [cteClosure_stab hstab k (le_trans hn (Nat.le_of_lt hk)),
      cteClosure_stab hstab tbl.length hn]

theorem org_tree_ids_sat (tbl : List OrgRow) (root : Int) {y x : Int}
    (hy : y ∈ org_tree_ids tbl root) (hedge : orgEdge tbl y x) :
    x ∈ org_tree_ids tbl root := by
  obtain ⟨row, hrow, hpar, hid⟩ := hedge
  have hx : x ∈ childIds tbl (org_tree_ids tbl root) := by
    rw [childIds, List.mem_toFinset]
    refine List.mem_map.mpr ⟨row, List.mem_filter.mpr ⟨hrow, ?_⟩, hid⟩
    rw [decide_eq_true_eq, hpar]
    exact hy
  have : x ∈ cteClosure tbl root (tbl.length + 1) := by
    rw [cteClosure_succ]
    exact Finset.mem_union_right _ hx
  exact cteClosure_le_final tbl root (tbl.length + 1) this

theorem org_tree_ids_root (tbl : List OrgRow) (root : Int)
    (hrow : ∃ row ∈ tbl, row.id = root) : root ∈ org_tree_ids tbl root := by
  obtain ⟨row, hrow, hid⟩ := hrow
  have : root ∈ cteAnchor tbl root := by
    rw [cteAnchor, List.mem_toFinset]
    exact List.mem_map.mpr ⟨row, List.mem_filter.mpr ⟨hrow, by simp [hid]⟩, hid⟩
  exact cteClosure_le_final tbl root 0 this

theorem org_tree_ids_reach (tbl : List OrgRow) (root : Int)
    (hrow : ∃ row ∈ tbl, row.id = root) {x : Int}
    (hreach : Relation.ReflTransGen (orgEdge tbl) root x) :
    x ∈ org_tree_ids tbl root := by
  induction hreach with
  | refl => exact org_tree_ids_root tbl root hrow
  | tail hrt hedge ih => exact org_tree_ids_sat tbl root ih hedge

/-- Claim C5 (amended): for every orgId that exists as a row of the organization table,
the set returned by get_user_organizations on a cache miss contains orgId itself and
every node transitively reachable along parent-to-child edges, the computed set is
written to the cache (nonempty cache entry), and a second call with that cache returns
the identical set from the cache. -/
theorem get_user_organizations_spec (tbl : List OrgRow) (org : Int)
    (hrow : ∃ row ∈ tbl, row.id = org) :
    org ∈ (get_user_organizations tbl ∅ org).1 ∧
    (∀ x, Relation.ReflTransGen (orgEdge tbl) org x →
      x ∈ (get_user_organizations tbl ∅ org).1) ∧
    (get_user_organizations tbl ∅ org).2.Nonempty ∧
    get_user_organizations tbl (get_user_organizations tbl ∅ org).2 org =
      ((get_user_organizations tbl ∅ org).1, (get_user_organizations tbl ∅ org).2) := by
  have hs : org ∈ org_tree_ids tbl org := org_tree_ids_root tbl org hrow
  have hne : (org_tree_ids tbl org).Nonempty := ⟨org, hs⟩
  have hfix : get_user_organizations tbl ∅ org = (org_tree_ids tbl org, org_tree_ids tbl org) := by
    simp only [get_user_organizations]
    rw [if_neg (by simp : ¬(∅ : Finset Int).Nonempty), if_pos hne]
  refine ⟨by rw [hfix]; exact hs, ?_, by rw [hfix]; exact hne, ?_⟩
  · intro x hx
    rw [hfix]
    exact org_tree_ids_reach tbl org hrow hx
  · rw [hfix]
    simp only [get_user_organizations]
    rw [if_pos hne]

/-- Counterexample for claim C5 as stated: for an orgId with no row in the table
(orgId 5, empty table) the returned set is empty and does not contain orgId. -/
theorem get_user_organizations_missing_cex :
    (5 : Int) ∉ (get_user_organizations [] ∅ 5).1 := by decide

/-- Witness for claim C5 on the one-row table [{id 1, parent 0}]. -/
theorem get_user_organizations_spec_witness :
    (1 : Int) ∈ (get_user_organizations [⟨1, 0, ['a']⟩] ∅ 1).1 ∧
    (∀ x, Relation.ReflTransGen (orgEdge [⟨1, 0, ['a']⟩]) 1 x →
      x ∈ (get_user_organizations [⟨1, 0, ['a']⟩] ∅ 1).1) ∧
    (get_user_organizations [⟨1, 0, ['a']⟩] ∅ 1).2.Nonempty ∧
    get_user_organizations [⟨1, 0, ['a']⟩] (get_user_organizations [⟨1, 0, ['a']⟩] ∅ 1).2 1 =
      ((get_user_organizations [⟨1, 0, ['a']⟩] ∅ 1).1,
        (get_user_organizations [⟨1, 0, ['a']⟩] ∅ 1).2) :=
  get_user_organizations_spec [⟨1, 0, ['a']⟩] 1 ⟨⟨1, 0, ['a']⟩, by simp, rfl⟩

-- ===== get_org_hierarchy =====

theorem cteUp_depth (tbl : List OrgRow) (start : Int) (n : Nat) :
    ∀ r ∈ cteUp tbl start n, r.2 = n + 1 := by
  induction n with
  | zero =>
    intro r hr
    rw [cteUp] at hr
    obtain ⟨o, _, rfl⟩ := List.mem_map.mp hr
    rfl
  | succ k ih =>
    intro r hr
    rw [cteUp] at hr
    obtain ⟨c, hc, hr2⟩ := List.mem_flatMap.mp hr
    by_cases hg : (c.1.org_id != 0 && c.2 < 10) = true
    · rw [if_pos hg] at hr2
      obtain ⟨p, _, rfl⟩ := List.mem_map.mp hr2
      simp [ih c hc]
    · rw [if_neg hg] at hr2
      simp at hr2

theorem hierarchy_depth_bound (tbl : List OrgRow) (start : Int) :
    ∀ r ∈ hierarchyRows tbl start, r.2 ≤ 10 := by
  intro r hr
  rw [hierarchyRows] at hr
  obtain ⟨n, hn, hr2⟩ := List.mem_flatMap.mp hr
  rw [List.mem_reverse, List.mem_range] at hn
  rw [cteUp_depth tbl start n r hr2]
  omega

theorem cteUp_empty_succ {tbl : List OrgRow} {start : Int} {n : Nat}
    (h : cteUp tbl start n = []) : cteUp tbl start (n + 1) = [] := by
  rw [cteUp, h]
  rfl

/-- Claim C6: on a chain root -> A -> B -> C, get_org_hierarchy at C returns ids
["0", id A, id B, id C] in root-to-leaf order and names [name A, name B, name C]
with the synthetic root excluded; and for every table (longer chains and cycles
included) every accumulated row stays within the depth bound of 10. -/
theorem get_org_hierarchy_chain (a b c : Int) (na nb nc : List Char)
    (ha0 : a ≠ 0) (hb0 : b ≠ 0) (hc0 : c ≠ 0)
    (hab : a ≠ b) (hac : a ≠ c) (hbc : b ≠ c) :
    get_org_hierarchy [⟨a, 0, na⟩, ⟨b, a, nb⟩, ⟨c, b, nc⟩] c =
      ([na, nb, nc],
        [("0").data, (toString a).data, (toString b).data, (toString c).data]) ∧
    (∀ tbl : List OrgRow, ∀ start : Int, ∀ r ∈ hierarchyRows tbl start, r.2 ≤ 10) := by
  refine ⟨?_, fun tbl start => hierarchy_depth_bound tbl start⟩
  have eac : (a == c) = false := beq_eq_false_iff_ne.mpr hac
  have ebc : (b == c) = false := beq_eq_false_iff_ne.mpr hbc
  have ecc : (c == c) = true := beq_self_eq_true c
  have eab : (a == b) = false := beq_eq_false_iff_ne.mpr hab
  have ebb : (b == b) = true := beq_self_eq_true b
  have ecb : (c == b) = false := beq_eq_false_iff_ne.mpr (Ne.symm hbc)
  have eaa : (a == a) = true := beq_self_eq_true a
  have eba : (b == a) = false := beq_eq_false_iff_ne.mpr (Ne.symm hab)
  have eca : (c == a) = false := beq_eq_false_iff_ne.mpr (Ne.symm hac)
  have eb0 : (b != 0) = true := bne_iff_ne.mpr hb0
  have ea0 : (a != 0) = true := bne_iff_ne.mpr ha0
  have h0 : cteUp [⟨a, 0, na⟩, ⟨b, a, nb⟩, ⟨c, b, nc⟩] c 0 = [(⟨c, b, nc⟩, 1)] := by
    rw [cteUp]
    simp [List.filter, eac, ebc, ecc]
  have h1 : cteUp [⟨a, 0, na⟩, ⟨b, a, nb⟩, ⟨c, b, nc⟩] c 1 = [(⟨b, a, nb⟩, 2)] := by
    rw [cteUp, h0]
    simp [List.filter, eab, ebb, ecb, eb0, hb0]
  have h2 : cteUp [⟨a, 0, na⟩, ⟨b, a, nb⟩, ⟨c, b, nc⟩] c 2 = [(⟨a, 0, na⟩, 3)] := by
    rw [cteUp, h1]
    simp [List.filter, eaa, eba, eca, ea0, ha0]
  have h3 : cteUp [⟨a, 0, na⟩, ⟨b, a, nb⟩, ⟨c, b, nc⟩] c 3 = [] := by
    rw [cteUp, h2]
    simp
  have h4 := cteUp_empty_succ h3
  have h5 := cteUp_empty_succ h4
  have h6 := cteUp_empty_succ h5
  have h7 := cteUp_empty_succ h6
  have h8 := cteUp_empty_succ h7
  have h9 := cteUp_empty_succ h8
  have hrows : hierarchyRows [⟨a, 0, na⟩, ⟨b, a, nb⟩, ⟨c, b, nc⟩] c =
      [(⟨a, 0, na⟩, 3), (⟨b, a, nb⟩, 2), (⟨c, b, nc⟩, 1)] := by
    rw [hierarchyRows,
      (by decide : (List.range 10).reverse = [9, 8, 7, 6, 5, 4, 3, 2, 1, 0])]
    simp [List.flatMap_cons, h0, h1, h2, h3, h4, h5, h6, h7, h8, h9]
  rw [get_org_hierarchy, hrows]
  simp [List.filterMap, ha0, hb0, hc0]

/-- Witness for claim C6 on the concrete chain 0 -> 1 -> 2 -> 3. -/
theorem get_org_hierarchy_chain_witness :
    get_org_hierarchy [⟨1, 0, ['a']⟩, ⟨2, 1, ['b']⟩, ⟨3, 2, ['c']⟩] 3 =
      ([['a'], ['b'], ['c']],
        [("0").data, (toString (1 : Int)).data, (toString (2 : Int)).data,
          (toString (3 : Int)).data]) ∧
    (∀ tbl : List OrgRow, ∀ start : Int, ∀ r ∈ hierarchyRows tbl start, r.2 ≤ 10) :=
  get_org_hierarchy_chain 1 2 3 ['a'] ['b'] ['c'] (by decide) (by decide) (by decide)
    (by decide) (by decide) (by decide)

-- ===== AsyncExecutor =====

/-- Claim C9: delete with an empty ids list returns 0 immediately: no organization
lookup, no store mutation, no event at all, and no error. -/
theorem delete_empty_ids (table : List Char) (sys : List OrgRow) (cache : Finset Int)
    (rows : List FileRow) (org : Option Int) :
    executor_delete table sys cache rows [] org = ⟨.ok 0, cache, rows, []⟩ := rfl

/-- Claim C3: when the executed mutation affects fewer rows than len(ids), delete
raises the partial-authorization error carrying missingCount = len(ids) - affected,
while the mutation is already committed: the resulting rows are the logically-deleted
rows (matched rows keep is_delete = 1) and the event trace contains the commit. -/
theorem delete_partial_auth (table : List Char) (sys : List OrgRow) (cache : Finset Int)
    (rows : List FileRow) (ids : List Int) (o : Int)
    (hids : ids ≠ [])
    (hallowed : (get_user_organizations sys cache o).1 ≠ ∅)
    (hpart : changedCount rows ids (some (get_user_organizations sys cache o).1) <
      ids.length) :
    (executor_delete table sys cache rows ids (some o)).result =
      .error (.partialAuth (ids.length -
        changedCount rows ids (some (get_user_organizations sys cache o).1))) ∧
    (executor_delete table sys cache rows ids (some o)).rows =
      applyLogicalDelete rows ids (some (get_user_organizations sys cache o).1) ∧
    DbEvent.evCommit ∈ (executor_delete table sys cache rows ids (some o)).events ∧
    ∀ r ∈ (executor_delete table sys cache rows ids (some o)).rows,
      ids.contains r.id = true → r.org_id ∈ (get_user_organizations sys cache o).1 →
        r.is_delete = 1 := by
  have hne : ids.isEmpty ≠ true := by
    cases ids with
    | nil => exact absurd rfl hids
    | cons x xs => simp
  have hfix : executor_delete table sys cache rows ids (some o) =
      ⟨.error (.partialAuth (ids.length -
          changedCount rows ids (some (get_user_organizations sys cache o).1))),
        (get_user_organizations sys cache o).2,
        applyLogicalDelete rows ids (some (get_user_organizations sys cache o).1),
        [DbEvent.evOrgLookup o, .evBegin,
          .evExec (deleteSqlText table ids.length (get_user_organizations sys cache o).1.card true)
            (PyVal.vInt 1 :: ids.map PyVal.vInt ++
              ((get_user_organizations sys cache o).1.sort (· ≤ ·)).map PyVal.vInt),
          .evCommit]⟩ := by
    simp only [executor_delete]
    rw [if_neg hne, if_neg hallowed, if_pos (Nat.ne_of_lt hpart)]
  refine ⟨by rw [hfix], by rw [hfix], by rw [hfix]; simp, ?_⟩
  rw [hfix]
  intro r hr hid horg
  simp only [applyLogicalDelete, List.mem_map] at hr
  obtain ⟨r0, _, rfl⟩ := hr
  by_cases hc : (ids.contains r0.id && (match some (get_user_organizations sys cache o).1 with
      | some allowed => decide (r0.org_id ∈ allowed)
      | none => true)) = true
  · rw [if_pos hc]
  · rw [if_neg hc]
    rw [if_neg hc] at hid horg
    exact absurd (by rw [hid]; simp [horg]) hc

-- read path of _execute with fallbacks

/-- Claim C10: when the store raises during execution, the read operations roll back
and return their fallbacks — fetch_total returns 0, fetch_one returns none,
fetch_all returns [] — and no error propagates to the caller. -/
theorem read_failure_fallback (sql : List Char) (params : List PyVal) (msg : List Char) :
    fetch_total sql params (.error msg) = (0, [.evBegin, .evRollback]) ∧
    fetch_one sql params (.error msg) = (none, [.evBegin, .evRollback]) ∧
    fetch_all sql params (.error msg) = ([], [.evBegin, .evRollback]) :=
  ⟨rfl, rfl, rfl⟩

/-- Claim C2 (code evaluation at the failing input): with the empty allowed-org list
the compiler emits the clause "org_id IN ()" with an empty placeholder list — both
when the empty list is passed directly and when resolution of a user's organizations
returns the empty set — and get_filter_sql splices that clause into the query.
MySQL rejects IN () as a syntax error, so this is not the syntactically valid
always-false predicate the specification requires. -/
theorem denied_scope_empty_in :
    (_generate_where_clause [] [] [] [] (ScopeArg.sList []) none (fun _ => [])) =
      (("org_id IN ()").data, []) ∧
    (_generate_where_clause [] [] [] [] ScopeArg.sNone (some 5) (fun _ => [])).1 =
      ("org_id IN ()").data ∧
    (get_filter_sql (("SELECT * FROM t WHERE x = 1").data) [] [] [] []
        (ScopeArg.sList []) none (fun _ => [])).1 =
      ("SELECT * FROM t WHERE x = 1 AND org_id IN ()").data := ⟨rfl, rfl, rfl⟩

/-- Claim C8: the find handler's pagination step yields " LIMIT 10 OFFSET 10" for
page 2 and pageSize 10 (offset (page-1)*pageSize, 1-based pages), and yields no
LIMIT/OFFSET clause at all for pageSize -1, whatever the page. -/
theorem find_pagination_spec :
    find_pagination_suffix 2 10 = (" LIMIT 10 OFFSET 10").data ∧
    (∀ page : Int, find_pagination_suffix page (-1) = []) :=
  ⟨by decide, fun page => by simp [find_pagination_suffix]⟩

/-- Witness for claim C7 with sorter [("createTime", -1), ("name", 1)]. -/
theorem sorter_create_time_unique_witness :
    (order_clauses [] ([] ++ (createTimeKey, -1) ::
        [((['n','a','m','e'] : List Char), (1 : Int))])).count ctDesc = 1 ∧
    get_sorter_sql ([] ++ (createTimeKey, -1) :: [(['n','a','m','e'], 1)]) [] =
      orderByChars ++ joinCommaSp (order_clauses [] ([] ++ (createTimeKey, -1) ::
        [(['n','a','m','e'], 1)])) :=
  sorter_create_time_unique [] [(['n','a','m','e'], 1)] (by decide)

/-- Witness for claim C3: ids [1,2,3], caller org 10 with descendants {10, 20}, rows
1 and 2 in scope and row 3 outside it: partial-authorization with missingCount 1,
rows 1 and 2 flagged deleted. -/
theorem delete_partial_auth_witness :
    (executor_delete ['t'] [⟨10, 0, []⟩, ⟨20, 10, []⟩] ∅
        [⟨1, 10, 0⟩, ⟨2, 20, 0⟩, ⟨3, 99, 0⟩] [1, 2, 3] (some 10)).result =
      .error (.partialAuth (([1, 2, 3] : List Int).length -
        changedCount [⟨1, 10, 0⟩, ⟨2, 20, 0⟩, ⟨3, 99, 0⟩] [1, 2, 3]
          (some (get_user_organizations [⟨10, 0, []⟩, ⟨20, 10, []⟩] ∅ 10).1))) ∧
    (executor_delete ['t'] [⟨10, 0, []⟩, ⟨20, 10, []⟩] ∅
        [⟨1, 10, 0⟩, ⟨2, 20, 0⟩, ⟨3, 99, 0⟩] [1, 2, 3] (some 10)).rows =
      applyLogicalDelete [⟨1, 10, 0⟩, ⟨2, 20, 0⟩, ⟨3, 99, 0⟩] [1, 2, 3]
        (some (get_user_organizations [⟨10, 0, []⟩, ⟨20, 10, []⟩] ∅ 10).1) ∧
    DbEvent.evCommit ∈ (executor_delete ['t'] [⟨10, 0, []⟩, ⟨20, 10, []⟩] ∅
        [⟨1, 10, 0⟩, ⟨2, 20, 0⟩, ⟨3, 99, 0⟩] [1, 2, 3] (some 10)).events ∧
    ∀ r ∈ (executor_delete ['t'] [⟨10, 0, []⟩, ⟨20, 10, []⟩] ∅
        [⟨1, 10, 0⟩, ⟨2, 20, 0⟩, ⟨3, 99, 0⟩] [1, 2, 3] (some 10)).rows,
      ([1, 2, 3] : List Int).contains r.id = true →
        r.org_id ∈ (get_user_organizations [⟨10, 0, []⟩, ⟨20, 10, []⟩] ∅ 10).1 →
          r.is_delete = 1 :=
  delete_partial_auth ['t'] [⟨10, 0, []⟩, ⟨20, 10, []⟩] ∅
    [⟨1, 10, 0⟩, ⟨2, 20, 0⟩, ⟨3, 99, 0⟩] [1, 2, 3] 10
    (by decide) (by decide) (by decide)
